import Mathlib

/-!
Shallow embedding of the `truns` value model (src/value.rs, src/table.rs):
a canonical `Value` tagged union with conversions to and from the native
value types of three formats (serde_json, toml, yaml_rust).

Modelling conventions:
* `i64` is `Int` (payloads understood to lie in `[-2^63, 2^63)`), `u64` is
  `Nat` (payloads `< 2^64`); the two Rust `as` casts that matter are made
  explicit (`u64_as_i64`, and `Int.toNat` for `i as u64` on non-negative `i`).
* `f64` is the inductive `F64`: NaN, signed infinity, or a finite decimal
  `(-1)^neg * mant * 10^exp` (the payload of a finite float as produced by
  decimal parsing; bit-level rounding is not modelled, which is sound here
  because no claim compares floats arising from different texts).
* Every hash map (`std` HashMap, `serde_json::Map`, `toml::Table`,
  yaml_rust's `Hash`) is an association list with unique keys built by
  `mapFromList`, which replays the source's sequential `insert` calls
  (last write wins, first binding position kept).  Iteration order is the
  list order; all the Rust map types compare by contents, so facts proved
  up to list equality imply the corresponding Rust equalities.
* A Rust panic (`unwrap`) is `Option.none`; a recoverable `Err` is
  `Except.error` over the `VError` type mirroring `value::Error`.
-/

/-- Model of `f64`. A finite float is carried as the decimal
`(-1)^neg * mant * 10^exp`. -/
inductive F64 where
  | nan
  | inf (neg : Bool)
  | finite (neg : Bool) (mant : Nat) (exp : Int)
deriving DecidableEq, Repr

/-- `f64::is_finite`. -/
def F64.is_finite : F64 → Bool
  | .finite _ _ _ => true
  | _ => false

/-- IEEE-754 `==` on `f64` (used by the derived `PartialEq` on `Value`):
NaN compares unequal to everything, `-0.0 == 0.0`. -/
def F64.ieeeEq : F64 → F64 → Bool
  | .nan, _ => false
  | _, .nan => false
  | .inf a, .inf b => a == b
  | .finite n1 m1 e1, .finite n2 m2 e2 =>
      (m1 == 0 && m2 == 0) || (n1 == n2 && m1 == m2 && e1 == e2)
  | _, _ => false

/-- Rendering used by `f64::to_string` in the model (exact text is not
load-bearing for any claim; only totality of the YAML export is). -/
def F64.render : F64 → String
  | .nan => "NaN"
  | .inf neg => if neg then "-inf" else "inf"
  | .finite neg m e =>
      (if neg then "-" else "") ++ toString m ++
        (if e == 0 then "" else "e" ++ toString e)

/-- Digits to a natural number, most significant first. -/
def digitsToNat (cs : List Char) : Nat :=
  cs.foldl (fun acc c => acc * 10 + (c.toNat - 48)) 0

/-- Strip a leading sign, returning (negative?, rest). -/
def stripSign : List Char → Bool × List Char
  | '-' :: rest => (true, rest)
  | '+' :: rest => (false, rest)
  | cs => (false, cs)

/-- Parse the exponent tail `e|E [sign] digits` (input starts after the
`e`/`E`): returns the exponent value if the whole rest is well-formed. -/
def parseExpTail (cs : List Char) : Option Int :=
  let sr := stripSign cs
  let de := sr.2.span Char.isDigit
  if de.1.isEmpty || !de.2.isEmpty then none
  else some (if sr.1 then -(digitsToNat de.1 : Int) else (digitsToNat de.1 : Int))

/-- Model of `str::parse::<f64>` (Rust `FromStr` for `f64`): optional sign,
then case-insensitively `inf`/`infinity`/`nan`, or a decimal numeral with
at least one digit, optional fraction and optional exponent. -/
def parseF64 (s : String) : Option F64 :=
  let sr := stripSign s.data
  let neg := sr.1
  let low := String.mk (sr.2.map Char.toLower)
  if low = "inf" || low = "infinity" then some (.inf neg)
  else if low = "nan" then some .nan
  else
    let ip := sr.2.span Char.isDigit
    let fp : List Char × List Char :=
      match ip.2 with
      | '.' :: r => r.span Char.isDigit
      | _ => ([], ip.2)
    if ip.1.isEmpty && fp.1.isEmpty then none
    else
      let mant := digitsToNat (ip.1 ++ fp.1)
      let fexp : Int := -(fp.1.length : Int)
      match fp.2 with
      | [] => some (.finite neg mant fexp)
      | c :: r =>
          if c == 'e' || c == 'E' then
            match parseExpTail r with
            | some e => some (.finite neg mant (e + fexp))
            | none => none
          else none

/-- Model of `value::Error` (src/value.rs). -/
inductive VError where
  | UnsupportedType (s : String)
  | InvalidValue (s : String)
deriving DecidableEq, Repr

/-- Model of `Value` (src/value.rs).  The `Table` struct of src/table.rs is
one field `items : HashMap<String, Value>`, modelled as its unique-keyed
association list. -/
inductive Value where
  | Null
  | Int (i : Int)
  | UInt (u : Nat)
  | Float (f : F64)
  | String (s : String)
  | Bool (b : Bool)
  | Array (xs : List Value)
  | Table (items : List (String × Value))

/-- `HashMap::insert` on the association-list model: replace the first
binding of the key in place, else append. -/
def mapInsert {α : Type} : List (String × α) → String → α → List (String × α)
  | [], k, v => [(k, v)]
  | (k1, v1) :: rest, k, v =>
      if k1 = k then (k1, v) :: rest else (k1, v1) :: mapInsert rest k v

/-- Replay a sequence of `insert` calls, left to right, onto `acc`. -/
def mapFromList {α : Type} (acc : List (String × α)) :
    List (String × α) → List (String × α)
  | [] => acc
  | (k, v) :: rest => mapFromList (mapInsert acc k v) rest

/-- `HashMap::get` on the model: first binding of the key. -/
def alookup {α : Type} (k : String) : List (String × α) → Option α
  | [] => none
  | (k1, v1) :: rest => if k1 = k then some v1 else alookup k rest

/-- Pairwise-distinct keys (the invariant every Rust-side map satisfies). -/
def nodupKeys {α : Type} : List (String × α) → Bool
  | [] => true
  | (k, _) :: rest => !(rest.any (fun p => p.1 == k)) && nodupKeys rest

/-- `u as i64` for `u : u64` (`u < 2^64`): two's-complement
reinterpretation. -/
def u64_as_i64 (u : Nat) : Int :=
  if u < 2 ^ 63 then (u : Int) else (u : Int) - 2 ^ 64

mutual
/-- The tree contains `Null` somewhere. -/
def containsNull : Value → Bool
  | .Null => true
  | .Array xs => containsNullList xs
  | .Table items => containsNullPairs items
  | _ => false

def containsNullList : List Value → Bool
  | [] => false
  | v :: rest => containsNull v || containsNullList rest

def containsNullPairs : List (String × Value) → Bool
  | [] => false
  | (_, v) :: rest => containsNull v || containsNullPairs rest
end

mutual
/-- The tree contains `Float(NaN)` somewhere. -/
def containsNaN : Value → Bool
  | .Float .nan => true
  | .Array xs => containsNaNList xs
  | .Table items => containsNaNPairs items
  | _ => false

def containsNaNList : List Value → Bool
  | [] => false
  | v :: rest => containsNaN v || containsNaNList rest

def containsNaNPairs : List (String × Value) → Bool
  | [] => false
  | (_, v) :: rest => containsNaN v || containsNaNPairs rest
end

mutual
/-- The tree contains a `Float` holding NaN or an infinity somewhere. -/
def hasBadFloat : Value → Bool
  | .Float f => !f.is_finite
  | .Array xs => hasBadFloatList xs
  | .Table items => hasBadFloatPairs items
  | _ => false

def hasBadFloatList : List Value → Bool
  | [] => false
  | v :: rest => hasBadFloat v || hasBadFloatList rest

def hasBadFloatPairs : List (String × Value) → Bool
  | [] => false
  | (_, v) :: rest => hasBadFloat v || hasBadFloatPairs rest
end

mutual
/-- Every `Int` payload in the tree is negative. -/
def intsNeg : Value → Bool
  | .Int i => decide (i < 0)
  | .Array xs => intsNegList xs
  | .Table items => intsNegPairs items
  | _ => true

def intsNegList : List Value → Bool
  | [] => true
  | v :: rest => intsNeg v && intsNegList rest

def intsNegPairs : List (String × Value) → Bool
  | [] => true
  | (_, v) :: rest => intsNeg v && intsNegPairs rest
end

mutual
/-- Well-formedness invariant every Rust-side `Value` satisfies by
construction: every table has pairwise-distinct keys. -/
def wfKeys : Value → Bool
  | .Array xs => wfKeysList xs
  | .Table items => nodupKeys items && wfKeysPairs items
  | _ => true

def wfKeysList : List Value → Bool
  | [] => true
  | v :: rest => wfKeys v && wfKeysList rest

def wfKeysPairs : List (String × Value) → Bool
  | [] => true
  | (_, v) :: rest => wfKeys v && wfKeysPairs rest
end

mutual
/-- The derived `PartialEq` on `Value`: structural, with `f64` compared by
IEEE `==` and tables compared as `HashMap`s (equal lengths and every
binding of the left found equal via `get` on the right). -/
def valueBeq : Value → Value → Bool
  | .Null, .Null => true
  | .Int a, .Int b => a == b
  | .UInt a, .UInt b => a == b
  | .Float a, .Float b => F64.ieeeEq a b
  | .String a, .String b => a == b
  | .Bool a, .Bool b => a == b
  | .Array a, .Array b => valueBeqList a b
  | .Table a, .Table b => (a.length == b.length) && tableSubset a b
  | _, _ => false

def valueBeqList : List Value → List Value → Bool
  | [], [] => true
  | a :: as1, b :: bs1 => valueBeq a b && valueBeqList as1 bs1
  | _, _ => false

def tableSubset : List (String × Value) → List (String × Value) → Bool
  | [], _ => true
  | (k, v) :: rest, other =>
      (match alookup k other with
       | some w => valueBeq v w
       | none => false) && tableSubset rest other
end

/-- Model of `serde_json`'s internal number representation `N`
(arbitrary-precision feature off): `PosInt(u64)` for values encoded
non-negative, `NegInt(i64)` always negative, `Float(f64)` always finite
(`Number::from_f64` rejects NaN and infinities, and the parser cannot
produce them). -/
inductive JNumber where
  | PosInt (n : Nat)
  | NegInt (i : Int)
  | FloatN (neg : Bool) (mant : Nat) (exp : Int)
deriving DecidableEq, Repr

/-- `serde_json::Number::is_f64`. -/
def JNumber.is_f64 : JNumber → Bool
  | .FloatN _ _ _ => true
  | _ => false

/-- `serde_json::Number::is_u64`. -/
def JNumber.is_u64 : JNumber → Bool
  | .PosInt _ => true
  | _ => false

/-- `serde_json::Number::as_f64` (all three representations convert). -/
def JNumber.as_f64 : JNumber → Option F64
  | .FloatN neg m e => some (.finite neg m e)
  | .PosInt n => some (.finite false n 0)
  | .NegInt i => some (.finite true i.natAbs 0)

/-- `serde_json::Number::as_u64`. -/
def JNumber.as_u64 : JNumber → Option Nat
  | .PosInt n => some n
  | _ => none

/-- `serde_json::Number::as_i64`. -/
def JNumber.as_i64 : JNumber → Option Int
  | .PosInt n => if n ≤ 2 ^ 63 - 1 then some (n : Int) else none
  | .NegInt i => some i
  | .FloatN _ _ _ => none

/-- `serde_json::Number::from_f64`: `Some` exactly on finite floats. -/
def JNumber.from_f64 : F64 → Option JNumber
  | .finite neg m e => some (.FloatN neg m e)
  | _ => none

/-- `impl From<i64> for serde_json::Number`: negative values are stored as
`NegInt`, non-negative ones as `PosInt` (cast to `u64`). -/
def JNumber.from_i64 (i : Int) : JNumber :=
  if i < 0 then .NegInt i else .PosInt i.toNat

/-- Model of `serde_json::Value` (`Map<String, Value>` as an association
list, see the header). -/
inductive JValue where
  | Null
  | Bool (b : Bool)
  | Number (n : JNumber)
  | String (s : String)
  | Array (xs : List JValue)
  | Object (o : List (String × JValue))

mutual
/-- `impl Into<serde_json::Value> for Value` (src/value.rs:32-59).
`none` models the `unwrap` panic on `Number::from_f64` of a non-finite
float; every other arm is total. -/
def intoJson : Value → Option JValue
  | .Null => some .Null
  | .Bool b => some (.Bool b)
  | .Float f =>
      match JNumber.from_f64 f with
      | some n => some (.Number n)
      | none => none
  | .Int i => some (.Number (JNumber.from_i64 i))
  | .UInt u => some (.Number (.PosInt u))
  | .Array a =>
      match intoJsonList a with
      | some xs => some (.Array xs)
      | none => none
  | .String s => some (.String s)
  | .Table t =>
      match intoJsonPairs t with
      | some ps => some (.Object (mapFromList [] ps))
      | none => none

def intoJsonList : List Value → Option (List JValue)
  | [] => some []
  | v :: rest =>
      match intoJson v with
      | none => none
      | some j =>
          match intoJsonList rest with
          | none => none
          | some js => some (j :: js)

def intoJsonPairs : List (String × Value) → Option (List (String × JValue))
  | [] => some []
  | (k, v) :: rest =>
      match intoJson v with
      | none => none
      | some j =>
          match intoJsonPairs rest with
          | none => none
          | some ps => some ((k, j) :: ps)
end

mutual
/-- `impl From<serde_json::Value> for Value` (src/value.rs:61-87), total.
The number arm is the source's `is_f64` / `is_u64` / `as_i64` chain, which
is exhaustive over the three `JNumber` representations. -/
def fromJson : JValue → Value
  | .Bool b => .Bool b
  | .Null => .Null
  | .Number (.FloatN neg m e) => .Float (.finite neg m e)
  | .Number (.PosInt u) => .UInt u
  | .Number (.NegInt i) => .Int i
  | .String s => .String s
  | .Array a => .Array (fromJsonList a)
  | .Object o => .Table (mapFromList [] (fromJsonPairs o))

def fromJsonList : List JValue → List Value
  | [] => []
  | j :: rest => fromJson j :: fromJsonList rest

def fromJsonPairs : List (String × JValue) → List (String × Value)
  | [] => []
  | (k, j) :: rest => (k, fromJson j) :: fromJsonPairs rest
end

/-- Model of `toml::Value` (a datetime is carried as its string
rendering, which is all the source ever reads from it). -/
inductive TValue where
  | String (s : String)
  | Integer (i : Int)
  | FloatT (f : F64)
  | Boolean (b : Bool)
  | Datetime (s : String)
  | Array (xs : List TValue)
  | Table (t : List (String × TValue))

mutual
/-- `impl From<toml::Value> for Value` (src/value.rs:98-123), total. -/
def fromToml : TValue → Value
  | .Boolean b => .Bool b
  | .Datetime dt => .String dt
  | .FloatT f => .Float f
  | .Integer i => if 0 ≤ i then .UInt i.toNat else .Int i
  | .String s => .String s
  | .Table t => .Table (mapFromList [] (fromTomlPairs t))
  | .Array a => .Array (fromTomlList a)

def fromTomlList : List TValue → List Value
  | [] => []
  | t :: rest => fromToml t :: fromTomlList rest

def fromTomlPairs : List (String × TValue) → List (String × Value)
  | [] => []
  | (k, t) :: rest => (k, fromToml t) :: fromTomlPairs rest
end

mutual
/-- `impl TryInto<toml::Value> for Value` (src/value.rs:125-150):
`Null` is the only failing arm; arrays and tables short-circuit on the
first child failure. -/
def tryIntoToml : Value → Except VError TValue
  | .Array a =>
      match tryIntoTomlList a with
      | .error e => .error e
      | .ok xs => .ok (.Array xs)
  | .Bool b => .ok (.Boolean b)
  | .Float f => .ok (.FloatT f)
  | .Int i => .ok (.Integer i)
  | .UInt u => .ok (.Integer (u64_as_i64 u))
  | .String s => .ok (.String s)
  | .Table t =>
      match tryIntoTomlPairs t with
      | .error e => .error e
      | .ok ps => .ok (.Table (mapFromList [] ps))
  | .Null => .error (.UnsupportedType "null")

def tryIntoTomlList : List Value → Except VError (List TValue)
  | [] => .ok []
  | v :: rest =>
      match tryIntoToml v with
      | .error e => .error e
      | .ok t =>
          match tryIntoTomlList rest with
          | .error e => .error e
          | .ok ts => .ok (t :: ts)

def tryIntoTomlPairs : List (String × Value) → Except VError (List (String × TValue))
  | [] => .ok []
  | (k, v) :: rest =>
      match tryIntoToml v with
      | .error e => .error e
      | .ok t =>
          match tryIntoTomlPairs rest with
          | .error e => .error e
          | .ok ps => .ok ((k, t) :: ps)
end

/-- Model of `yaml_rust::yaml::Yaml`.  A `Hash` is yaml_rust's
`LinkedHashMap<Yaml, Yaml>`, carried as its entry list in insertion
order. -/
inductive Yaml where
  | Real (s : String)
  | Integer (i : Int)
  | String (s : String)
  | Boolean (b : Bool)
  | Array (xs : List Yaml)
  | Hash (h : List (Yaml × Yaml))
  | Alias (a : Nat)
  | Null
  | BadValue

/-- `Yaml::as_str`: `Some` exactly on `String` nodes. -/
def yamlAsStr : Yaml → Option String
  | .String s => some s
  | _ => none

/-- Rust `Debug` escaping of a string body (the common escapes; exact
treatment of exotic control characters is not load-bearing). -/
def debugEscapeStr (s : String) : String :=
  s.data.foldl
    (fun acc c =>
      acc ++ (if c = '"' then "\\\"" else if c = '\\' then "\\\\"
              else if c = '\n' then "\\n" else if c = '\t' then "\\t"
              else if c = '\r' then "\\r" else String.mk [c]))
    ""

/-- Comma-separate rendered fragments, Rust `Debug`-list style. -/
def commaSep : List String → String
  | [] => ""
  | [x] => x
  | x :: rest => x ++ ", " ++ commaSep rest

mutual
/-- The derived `Debug` rendering of a `Yaml` node, as produced by
`format!` in the source's error paths. -/
def debugRender : Yaml → String
  | .Real s => "Real(\"" ++ debugEscapeStr s ++ "\")"
  | .Integer i => "Integer(" ++ toString i ++ ")"
  | .String s => "String(\"" ++ debugEscapeStr s ++ "\")"
  | .Boolean b => "Boolean(" ++ (if b then "true" else "false") ++ ")"
  | .Array xs => "Array([" ++ commaSep (debugRenderList xs) ++ "])"
  | .Hash h => "Hash(\x7b" ++ commaSep (debugRenderPairs h) ++ "\x7d)"
  | .Alias a => "Alias(" ++ toString a ++ ")"
  | .Null => "Null"
  | .BadValue => "BadValue"

def debugRenderList : List Yaml → List String
  | [] => []
  | y :: rest => debugRender y :: debugRenderList rest

def debugRenderPairs : List (Yaml × Yaml) → List String
  | [] => []
  | (k, v) :: rest =>
      (debugRender k ++ ": " ++ debugRender v) :: debugRenderPairs rest
end

mutual
/-- `impl Into<yaml::Yaml> for Value` (src/value.rs:156-177), total.
The table arm replays the `Hash` inserts; the keys, all
`Yaml::String`, are wrapped after the string-keyed replay. -/
def intoYaml : Value → Yaml
  | .Null => .Null
  | .Bool b => .Boolean b
  | .Float f => .Real f.render
  | .Int i => .Integer i
  | .UInt u => .Integer (u64_as_i64 u)
  | .String s => .String s
  | .Array a => .Array (intoYamlList a)
  | .Table t =>
      .Hash ((mapFromList [] (intoYamlPairs t)).map
        (fun p => (Yaml.String p.1, p.2)))

def intoYamlList : List Value → List Yaml
  | [] => []
  | v :: rest => intoYaml v :: intoYamlList rest

def intoYamlPairs : List (String × Value) → List (String × Yaml)
  | [] => []
  | (k, v) :: rest => (k, intoYaml v) :: intoYamlPairs rest
end

mutual
/-- `impl TryFrom<yaml::Yaml> for Value` (src/value.rs:179-214).
`none` models the `unwrap` panic on parsing a `Real` node's text;
`some (.error _)` the returned `Err`.  For each hash entry the key's
`as_str` check precedes the value conversion, and both lists
short-circuit left to right. -/
def tryFromYaml : Yaml → Option (Except VError Value)
  | .Alias _ => some (.error (.UnsupportedType "alias"))
  | .BadValue => some (.error (.InvalidValue (debugRender .BadValue)))
  | .Null => some (.ok .Null)
  | .Integer i =>
      if 0 ≤ i then some (.ok (.UInt i.toNat)) else some (.ok (.Int i))
  | .Real fs =>
      match parseF64 fs with
      | some f => some (.ok (.Float f))
      | none => none
  | .String s => some (.ok (.String s))
  | .Boolean b => some (.ok (.Bool b))
  | .Array a =>
      match tryFromYamlList a with
      | none => none
      | some (.error e) => some (.error e)
      | some (.ok vs) => some (.ok (.Array vs))
  | .Hash h =>
      match tryFromYamlHash h with
      | none => none
      | some (.error e) => some (.error e)
      | some (.ok ps) => some (.ok (.Table (mapFromList [] ps)))

def tryFromYamlList : List Yaml → Option (Except VError (List Value))
  | [] => some (.ok [])
  | y :: rest =>
      match tryFromYaml y with
      | none => none
      | some (.error e) => some (.error e)
      | some (.ok v) =>
          match tryFromYamlList rest with
          | none => none
          | some (.error e) => some (.error e)
          | some (.ok vs) => some (.ok (v :: vs))

def tryFromYamlHash : List (Yaml × Yaml) → Option (Except VError (List (String × Value)))
  | [] => some (.ok [])
  | (k, v) :: rest =>
      match yamlAsStr k with
      | none => some (.error (.InvalidValue (debugRender k)))
      | some key =>
          match tryFromYaml v with
          | none => none
          | some (.error e) => some (.error e)
          | some (.ok val) =>
              match tryFromYamlHash rest with
              | none => none
              | some (.error e) => some (.error e)
              | some (.ok ps) => some (.ok ((key, val) :: ps))
end

/-! ### Association-list map lemmas -/

theorem mapInsert_of_notMem {α : Type} (k : String) (v : α) :
    ∀ l : List (String × α), (∀ p ∈ l, p.1 ≠ k) → mapInsert l k v = l ++ [(k, v)]
  | [], _ => rfl
  | (k1, v1) :: rest, h => by
      have hk : k1 ≠ k := h (k1, v1) (List.mem_cons_self _ _)
      simp only [mapInsert, if_neg hk, List.cons_append, List.cons.injEq, true_and]
      exact mapInsert_of_notMem k v rest (fun p hp => h p (List.mem_cons_of_mem _ hp))

theorem nodupKeys_cons {α : Type} (k : String) (v : α) (rest : List (String × α)) :
    nodupKeys ((k, v) :: rest) = (!(rest.any (fun p => p.1 == k)) && nodupKeys rest) := rfl

theorem mapFromList_eq_append {α : Type} :
    ∀ (l acc : List (String × α)), nodupKeys l = true →
      (∀ p ∈ acc, ∀ q ∈ l, p.1 ≠ q.1) → mapFromList acc l = acc ++ l
  | [], acc, _, _ => by simp [mapFromList]
  | (k, v) :: rest, acc, hnd, hdisj => by
      rw [nodupKeys_cons] at hnd
      have hnd1 := (Bool.and_eq_true _ _).mp hnd
      have hins : mapInsert acc k v = acc ++ [(k, v)] := by
        refine mapInsert_of_notMem k v acc (fun p hp => ?_)
        exact hdisj p hp (k, v) (List.mem_cons_self _ _)
      have hrec : mapFromList (acc ++ [(k, v)]) rest = (acc ++ [(k, v)]) ++ rest := by
        refine mapFromList_eq_append rest (acc ++ [(k, v)]) hnd1.2 ?_
        intro p hp q hq
        rcases List.mem_append.mp hp with hp1 | hp1
        · exact hdisj p hp1 q (List.mem_cons_of_mem _ hq)
        · have hpk : p = (k, v) := by simpa using hp1
          subst hpk
          intro heq
          have : rest.any (fun p => p.1 == k) = true :=
            List.any_eq_true.mpr ⟨q, hq, by simp [heq.symm]⟩
          simp [this] at hnd1
      calc mapFromList acc ((k, v) :: rest)
          = mapFromList (mapInsert acc k v) rest := rfl
        _ = (acc ++ [(k, v)]) ++ rest := by rw [hins, hrec]
        _ = acc ++ (k, v) :: rest := by simp

theorem mapFromList_nil {α : Type} (l : List (String × α)) (h : nodupKeys l = true) :
    mapFromList [] l = l := by
  simpa using mapFromList_eq_append l [] h (by simp)

theorem mapInsert_any_false {α : Type} (f : α → Bool) (k : String) (v : α) :
    ∀ l : List (String × α), l.any (fun p => f p.2) = false → f v = false →
      (mapInsert l k v).any (fun p => f p.2) = false
  | [], _, hv => by simp [mapInsert, hv]
  | (k1, v1) :: rest, hl, hv => by
      simp only [List.any_cons, Bool.or_eq_false_iff] at hl
      by_cases hk : k1 = k
      · simp [mapInsert, hk, hv, hl.1, hl.2]
      · simp only [mapInsert, if_neg hk, List.any_cons, Bool.or_eq_false_iff]
        exact ⟨hl.1, mapInsert_any_false f k v rest hl.2 hv⟩

theorem mapFromList_any_false {α : Type} (f : α → Bool) :
    ∀ (l acc : List (String × α)), acc.any (fun p => f p.2) = false →
      l.any (fun p => f p.2) = false → (mapFromList acc l).any (fun p => f p.2) = false
  | [], acc, hacc, _ => by simpa [mapFromList] using hacc
  | (k, v) :: rest, acc, hacc, hl => by
      simp only [List.any_cons, Bool.or_eq_false_iff] at hl
      exact mapFromList_any_false f rest (mapInsert acc k v)
        (mapInsert_any_false f k v acc hacc hl.1) hl.2

theorem alookup_of_nodup {α : Type} :
    ∀ l : List (String × α), nodupKeys l = true → ∀ p ∈ l, alookup p.1 l = some p.2
  | [], _, p, hp => by simp at hp
  | (k, v) :: rest, hnd, p, hp => by
      rw [nodupKeys_cons] at hnd
      have hnd1 := (Bool.and_eq_true _ _).mp hnd
      rcases List.mem_cons.mp hp with hp1 | hp1
      · subst hp1; simp [alookup]
      · have hpk : k ≠ p.1 := by
          intro hkp
          have : rest.any (fun q => q.1 == k) = true :=
            List.any_eq_true.mpr ⟨p, hp1, by simp [hkp]⟩
          simp [this] at hnd1
        simp only [alookup, if_neg hpk]
        exact alookup_of_nodup rest hnd1.2 p hp1

theorem keys_any_eq {α β : Type} (k : String) :
    ∀ (l1 : List (String × α)) (l2 : List (String × β)),
      l1.map Prod.fst = l2.map Prod.fst →
      l1.any (fun p => p.1 == k) = l2.any (fun p => p.1 == k)
  | [], [], _ => rfl
  | [], _ :: _, h => by simp at h
  | _ :: _, [], h => by simp at h
  | p1 :: r1, p2 :: r2, h => by
      simp only [List.map_cons, List.cons.injEq] at h
      simp only [List.any_cons, h.1, keys_any_eq k r1 r2 h.2]

theorem nodupKeys_keyEq {α β : Type} :
    ∀ (l1 : List (String × α)) (l2 : List (String × β)),
      l1.map Prod.fst = l2.map Prod.fst → nodupKeys l1 = nodupKeys l2
  | [], [], _ => rfl
  | [], _ :: _, h => by simp at h
  | _ :: _, [], h => by simp at h
  | (k1, v1) :: r1, (k2, v2) :: r2, h => by
      simp only [List.map_cons, List.cons.injEq] at h
      rw [nodupKeys_cons, nodupKeys_cons, h.1, keys_any_eq k2 r1 r2 h.2,
        nodupKeys_keyEq r1 r2 h.2]

/-! ### TOML export: null rejection -/

mutual
theorem toml_ok_of_noNull : ∀ v, containsNull v = false → ∃ t, tryIntoToml v = .ok t
  | .Null, h => by simp [containsNull] at h
  | .Int i, _ => ⟨_, rfl⟩
  | .UInt u, _ => ⟨_, rfl⟩
  | .Float f, _ => ⟨_, rfl⟩
  | .String s, _ => ⟨_, rfl⟩
  | .Bool b, _ => ⟨_, rfl⟩
  | .Array xs, h => by
      obtain ⟨ts, hts⟩ := toml_okList_of_noNull xs (by simpa [containsNull] using h)
      exact ⟨.Array ts, by simp [tryIntoToml, hts]⟩
  | .Table items, h => by
      obtain ⟨ps, hps⟩ := toml_okPairs_of_noNull items (by simpa [containsNull] using h)
      exact ⟨.Table (mapFromList [] ps), by simp [tryIntoToml, hps]⟩

theorem toml_okList_of_noNull : ∀ xs, containsNullList xs = false →
    ∃ ts, tryIntoTomlList xs = .ok ts
  | [], _ => ⟨[], rfl⟩
  | v :: rest, h => by
      simp only [containsNullList, Bool.or_eq_false_iff] at h
      obtain ⟨t, ht⟩ := toml_ok_of_noNull v h.1
      obtain ⟨ts, hts⟩ := toml_okList_of_noNull rest h.2
      exact ⟨t :: ts, by simp [tryIntoTomlList, ht, hts]⟩

theorem toml_okPairs_of_noNull : ∀ l, containsNullPairs l = false →
    ∃ ps, tryIntoTomlPairs l = .ok ps
  | [], _ => ⟨[], rfl⟩
  | (k, v) :: rest, h => by
      simp only [containsNullPairs, Bool.or_eq_false_iff] at h
      obtain ⟨t, ht⟩ := toml_ok_of_noNull v h.1
      obtain ⟨ps, hps⟩ := toml_okPairs_of_noNull rest h.2
      exact ⟨(k, t) :: ps, by simp [tryIntoTomlPairs, ht, hps]⟩
end

mutual
theorem toml_err_of_null : ∀ v, containsNull v = true →
    tryIntoToml v = .error (.UnsupportedType "null")
  | .Null, _ => rfl
  | .Int i, h => by simp [containsNull] at h
  | .UInt u, h => by simp [containsNull] at h
  | .Float f, h => by simp [containsNull] at h
  | .String s, h => by simp [containsNull] at h
  | .Bool b, h => by simp [containsNull] at h
  | .Array xs, h => by
      have := toml_errList_of_null xs (by simpa [containsNull] using h)
      simp [tryIntoToml, this]
  | .Table items, h => by
      have := toml_errPairs_of_null items (by simpa [containsNull] using h)
      simp [tryIntoToml, this]

theorem toml_errList_of_null : ∀ xs, containsNullList xs = true →
    tryIntoTomlList xs = .error (.UnsupportedType "null")
  | [], h => by simp [containsNullList] at h
  | v :: rest, h => by
      by_cases hv : containsNull v = true
      · simp [tryIntoTomlList, toml_err_of_null v hv]
      · simp only [containsNullList, Bool.or_eq_true] at h
        have hrest := h.resolve_left hv
        obtain ⟨t, ht⟩ := toml_ok_of_noNull v (Bool.not_eq_true _ ▸ (by simpa using hv))
        simp [tryIntoTomlList, ht, toml_errList_of_null rest hrest]

theorem toml_errPairs_of_null : ∀ l, containsNullPairs l = true →
    tryIntoTomlPairs l = .error (.UnsupportedType "null")
  | [], h => by simp [containsNullPairs] at h
  | (k, v) :: rest, h => by
      by_cases hv : containsNull v = true
      · simp [tryIntoTomlPairs, toml_err_of_null v hv]
      · simp only [containsNullPairs, Bool.or_eq_true] at h
        have hrest := h.resolve_left hv
        obtain ⟨t, ht⟩ := toml_ok_of_noNull v (Bool.not_eq_true _ ▸ (by simpa using hv))
        simp [tryIntoTomlPairs, ht, toml_errPairs_of_null rest hrest]
end

theorem tomlList_append_err :
    ∀ pre, containsNullList pre = false → ∀ x suf e, tryIntoToml x = .error e →
      tryIntoTomlList (pre ++ x :: suf) = .error e
  | [], _, x, suf, e, hx => by simp [tryIntoTomlList, hx]
  | v :: rest, h, x, suf, e, hx => by
      simp only [containsNullList, Bool.or_eq_false_iff] at h
      obtain ⟨t, ht⟩ := toml_ok_of_noNull v h.1
      simp [tryIntoTomlList, ht, tomlList_append_err rest h.2 x suf e hx]

theorem tomlPairs_append_err :
    ∀ pre, containsNullPairs pre = false → ∀ k x suf e, tryIntoToml x = .error e →
      tryIntoTomlPairs (pre ++ (k, x) :: suf) = .error e
  | [], _, k, x, suf, e, hx => by simp [tryIntoTomlPairs, hx]
  | (k1, v) :: rest, h, k, x, suf, e, hx => by
      simp only [containsNullPairs, Bool.or_eq_false_iff] at h
      obtain ⟨t, ht⟩ := toml_ok_of_noNull v h.1
      simp [tryIntoTomlPairs, ht, tomlPairs_append_err rest h.2 k x suf e hx]

/-! ### JSON export/import helper lemmas -/

theorem hasBadFloatPairs_eq_any : ∀ l, hasBadFloatPairs l = l.any (fun p => hasBadFloat p.2)
  | [] => rfl
  | (k, v) :: rest => by simp [hasBadFloatPairs, hasBadFloatPairs_eq_any rest]

mutual
theorem json_some_of_good : ∀ v, hasBadFloat v = false → ∃ j, intoJson v = some j
  | .Null, _ => ⟨_, rfl⟩
  | .Bool b, _ => ⟨_, rfl⟩
  | .Float f, h => by
      cases f with
      | nan => simp [hasBadFloat, F64.is_finite] at h
      | inf neg => simp [hasBadFloat, F64.is_finite] at h
      | finite neg m e => exact ⟨_, rfl⟩
  | .Int i, _ => ⟨_, rfl⟩
  | .UInt u, _ => ⟨_, rfl⟩
  | .String s, _ => ⟨_, rfl⟩
  | .Array xs, h => by
      obtain ⟨js, hjs⟩ := json_someList_of_good xs (by simpa [hasBadFloat] using h)
      exact ⟨.Array js, by simp [intoJson, hjs]⟩
  | .Table items, h => by
      obtain ⟨ps, hps⟩ := json_somePairs_of_good items (by simpa [hasBadFloat] using h)
      exact ⟨.Object (mapFromList [] ps), by simp [intoJson, hps]⟩

theorem json_someList_of_good : ∀ xs, hasBadFloatList xs = false →
    ∃ js, intoJsonList xs = some js
  | [], _ => ⟨[], rfl⟩
  | v :: rest, h => by
      simp only [hasBadFloatList, Bool.or_eq_false_iff] at h
      obtain ⟨j, hj⟩ := json_some_of_good v h.1
      obtain ⟨js, hjs⟩ := json_someList_of_good rest h.2
      exact ⟨j :: js, by simp [intoJsonList, hj, hjs]⟩

theorem json_somePairs_of_good : ∀ l, hasBadFloatPairs l = false →
    ∃ ps, intoJsonPairs l = some ps
  | [], _ => ⟨[], rfl⟩
  | (k, v) :: rest, h => by
      simp only [hasBadFloatPairs, Bool.or_eq_false_iff] at h
      obtain ⟨j, hj⟩ := json_some_of_good v h.1
      obtain ⟨ps, hps⟩ := json_somePairs_of_good rest h.2
      exact ⟨(k, j) :: ps, by simp [intoJsonPairs, hj, hps]⟩
end

mutual
theorem fromJson_good : ∀ j, hasBadFloat (fromJson j) = false
  | .Null => rfl
  | .Bool b => rfl
  | .Number (.FloatN neg m e) => rfl
  | .Number (.PosInt u) => rfl
  | .Number (.NegInt i) => rfl
  | .String s => rfl
  | .Array a => by simpa [fromJson, hasBadFloat] using fromJson_goodList a
  | .Object o => by
      have hlist := fromJson_goodPairs o
      simp only [fromJson, hasBadFloat]
      rw [hasBadFloatPairs_eq_any]
      refine mapFromList_any_false _ _ [] rfl ?_
      rw [← hasBadFloatPairs_eq_any]
      exact hlist

theorem fromJson_goodList : ∀ a : List JValue, hasBadFloatList (fromJsonList a) = false
  | [] => rfl
  | j :: rest => by
      simp [fromJsonList, hasBadFloatList, fromJson_good j, fromJson_goodList rest]

theorem fromJson_goodPairs : ∀ o : List (String × JValue),
    hasBadFloatPairs (fromJsonPairs o) = false
  | [] => rfl
  | (k, j) :: rest => by
      simp [fromJsonPairs, hasBadFloatPairs, fromJson_good j, fromJson_goodPairs rest]
end

theorem fromJsonList_eq_map : ∀ a : List JValue, fromJsonList a = a.map fromJson
  | [] => rfl
  | j :: rest => by simp [fromJsonList, fromJsonList_eq_map rest]

theorem fromJsonPairs_eq_map : ∀ o : List (String × JValue),
    fromJsonPairs o = o.map (fun p => (p.1, fromJson p.2))
  | [] => rfl
  | (k, j) :: rest => by simp [fromJsonPairs, fromJsonPairs_eq_map rest]

theorem fromJsonPairs_keys : ∀ o : List (String × JValue),
    (fromJsonPairs o).map Prod.fst = o.map Prod.fst
  | [] => rfl
  | (k, j) :: rest => by simp [fromJsonPairs, fromJsonPairs_keys rest]

/-! ### JSON round trip on trees whose every `Int` is negative -/

mutual
theorem jsonRoundtrip : ∀ v, wfKeys v = true → hasBadFloat v = false →
    intsNeg v = true → ∃ j, intoJson v = some j ∧ fromJson j = v
  | .Null, _, _, _ => ⟨.Null, rfl, rfl⟩
  | .Bool b, _, _, _ => ⟨.Bool b, rfl, rfl⟩
  | .Float f, _, hf, _ => by
      cases f with
      | nan => simp [hasBadFloat, F64.is_finite] at hf
      | inf neg => simp [hasBadFloat, F64.is_finite] at hf
      | finite neg m e => exact ⟨.Number (.FloatN neg m e), rfl, rfl⟩
  | .Int i, _, _, hi => by
      have hneg : i < 0 := by simpa [intsNeg] using hi
      refine ⟨.Number (.NegInt i), ?_, rfl⟩
      simp [intoJson, JNumber.from_i64, hneg]
  | .UInt u, _, _, _ => ⟨.Number (.PosInt u), rfl, rfl⟩
  | .String s, _, _, _ => ⟨.String s, rfl, rfl⟩
  | .Array xs, hw, hf, hi => by
      obtain ⟨js, hjs, hback⟩ := jsonRoundtripList xs (by simpa [wfKeys] using hw)
        (by simpa [hasBadFloat] using hf) (by simpa [intsNeg] using hi)
      exact ⟨.Array js, by simp [intoJson, hjs], by simp [fromJson, hback]⟩
  | .Table items, hw, hf, hi => by
      simp only [wfKeys, Bool.and_eq_true] at hw
      obtain ⟨ps, hps, hback⟩ := jsonRoundtripPairs items hw.2
        (by simpa [hasBadFloat] using hf) (by simpa [intsNeg] using hi)
      have hkeys : ps.map Prod.fst = items.map Prod.fst := by
        rw [← fromJsonPairs_keys ps, hback]
      have hndps : nodupKeys ps = true := by
        rw [nodupKeys_keyEq ps items hkeys]; exact hw.1
      refine ⟨.Object ps, by simp [intoJson, hps, mapFromList_nil ps hndps], ?_⟩
      simp [fromJson, hback, mapFromList_nil items hw.1]

theorem jsonRoundtripList : ∀ xs, wfKeysList xs = true → hasBadFloatList xs = false →
    intsNegList xs = true → ∃ js, intoJsonList xs = some js ∧ fromJsonList js = xs
  | [], _, _, _ => ⟨[], rfl, rfl⟩
  | v :: rest, hw, hf, hi => by
      simp only [wfKeysList, Bool.and_eq_true] at hw
      simp only [hasBadFloatList, Bool.or_eq_false_iff] at hf
      simp only [intsNegList, Bool.and_eq_true] at hi
      obtain ⟨j, hj, hjb⟩ := jsonRoundtrip v hw.1 hf.1 hi.1
      obtain ⟨js, hjs, hjsb⟩ := jsonRoundtripList rest hw.2 hf.2 hi.2
      exact ⟨j :: js, by simp [intoJsonList, hj, hjs], by simp [fromJsonList, hjb, hjsb]⟩

theorem jsonRoundtripPairs : ∀ l, wfKeysPairs l = true → hasBadFloatPairs l = false →
    intsNegPairs l = true → ∃ ps, intoJsonPairs l = some ps ∧ fromJsonPairs ps = l
  | [], _, _, _ => ⟨[], rfl, rfl⟩
  | (k, v) :: rest, hw, hf, hi => by
      simp only [wfKeysPairs, Bool.and_eq_true] at hw
      simp only [hasBadFloatPairs, Bool.or_eq_false_iff] at hf
      simp only [intsNegPairs, Bool.and_eq_true] at hi
      obtain ⟨j, hj, hjb⟩ := jsonRoundtrip v hw.1 hf.1 hi.1
      obtain ⟨ps, hps, hpsb⟩ := jsonRoundtripPairs rest hw.2 hf.2 hi.2
      exact ⟨(k, j) :: ps, by simp [intoJsonPairs, hj, hps],
        by simp [fromJsonPairs, hjb, hpsb]⟩
end

/-! ### Reflexivity of the derived equality vs NaN -/

mutual
theorem beq_self : ∀ v, wfKeys v = true → valueBeq v v = !containsNaN v
  | .Null, _ => rfl
  | .Int i, _ => by simp [valueBeq, containsNaN]
  | .UInt u, _ => by simp [valueBeq, containsNaN]
  | .Float f, _ => by
      cases f with
      | nan => rfl
      | inf neg => simp [valueBeq, containsNaN, F64.ieeeEq]
      | finite neg m e => simp [valueBeq, containsNaN, F64.ieeeEq]
  | .String s, _ => by simp [valueBeq, containsNaN]
  | .Bool b, _ => by simp [valueBeq, containsNaN]
  | .Array xs, hw => by
      simpa [valueBeq, containsNaN] using beq_selfList xs (by simpa [wfKeys] using hw)
  | .Table items, hw => by
      simp only [wfKeys, Bool.and_eq_true] at hw
      have hsub := beq_selfSubset items items (alookup_of_nodup items hw.1) hw.2
      simp [valueBeq, containsNaN, hsub]

theorem beq_selfList : ∀ xs, wfKeysList xs = true →
    valueBeqList xs xs = !containsNaNList xs
  | [], _ => rfl
  | v :: rest, hw => by
      simp only [wfKeysList, Bool.and_eq_true] at hw
      simp [valueBeqList, containsNaNList, beq_self v hw.1, beq_selfList rest hw.2,
        Bool.not_or]

theorem beq_selfSubset : ∀ l full : List (String × Value),
    (∀ p ∈ l, alookup p.1 full = some p.2) → wfKeysPairs l = true →
    tableSubset l full = !containsNaNPairs l
  | [], _, _, _ => rfl
  | (k, v) :: rest, full, hlk, hw => by
      simp only [wfKeysPairs, Bool.and_eq_true] at hw
      have hk : alookup k full = some v := hlk (k, v) (List.mem_cons_self _ _)
      have hrest := beq_selfSubset rest full
        (fun p hp => hlk p (List.mem_cons_of_mem _ hp)) hw.2
      simp [tableSubset, hk, beq_self v hw.1, hrest, containsNaNPairs, Bool.not_or]
end

/-! ### YAML import helper lemmas -/

theorem yamlList_ok : ∀ xs : List Yaml, (∀ y ∈ xs, ∃ v, tryFromYaml y = some (.ok v)) →
    ∃ vs, tryFromYamlList xs = some (.ok vs)
  | [], _ => ⟨[], rfl⟩
  | y :: rest, h => by
      obtain ⟨v, hv⟩ := h y (List.mem_cons_self _ _)
      obtain ⟨vs, hvs⟩ := yamlList_ok rest (fun z hz => h z (List.mem_cons_of_mem _ hz))
      exact ⟨v :: vs, by simp [tryFromYamlList, hv, hvs]⟩

theorem yamlHash_ok : ∀ h : List (Yaml × Yaml),
    (∀ p ∈ h, (∃ s, yamlAsStr p.1 = some s) ∧ ∃ v, tryFromYaml p.2 = some (.ok v)) →
    ∃ ps, tryFromYamlHash h = some (.ok ps)
  | [], _ => ⟨[], rfl⟩
  | (k, y) :: rest, h => by
      obtain ⟨⟨s, hs⟩, v, hv⟩ := h (k, y) (List.mem_cons_self _ _)
      obtain ⟨ps, hps⟩ := yamlHash_ok rest (fun p hp => h p (List.mem_cons_of_mem _ hp))
      exact ⟨(s, v) :: ps, by simp [tryFromYamlHash, hs, hv, hps]⟩

theorem yamlList_append_err : ∀ pre : List Yaml,
    (∀ y ∈ pre, ∃ v, tryFromYaml y = some (.ok v)) →
    ∀ x suf e, tryFromYaml x = some (.error e) →
      tryFromYamlList (pre ++ x :: suf) = some (.error e)
  | [], _, x, suf, e, hx => by simp [tryFromYamlList, hx]
  | y :: rest, h, x, suf, e, hx => by
      obtain ⟨v, hv⟩ := h y (List.mem_cons_self _ _)
      have hr := yamlList_append_err rest
        (fun z hz => h z (List.mem_cons_of_mem _ hz)) x suf e hx
      simp [tryFromYamlList, hv, hr]

theorem yamlHash_append_verr : ∀ pre : List (Yaml × Yaml),
    (∀ p ∈ pre, (∃ s, yamlAsStr p.1 = some s) ∧ ∃ v, tryFromYaml p.2 = some (.ok v)) →
    ∀ ks x suf e, tryFromYaml x = some (.error e) →
      tryFromYamlHash (pre ++ (Yaml.String ks, x) :: suf) = some (.error e)
  | [], _, ks, x, suf, e, hx => by simp [tryFromYamlHash, yamlAsStr, hx]
  | (k, y) :: rest, h, ks, x, suf, e, hx => by
      obtain ⟨⟨s, hs⟩, v, hv⟩ := h (k, y) (List.mem_cons_self _ _)
      have hr := yamlHash_append_verr rest
        (fun p hp => h p (List.mem_cons_of_mem _ hp)) ks x suf e hx
      simp [tryFromYamlHash, hs, hv, hr]

theorem yamlHash_append_keyerr : ∀ pre : List (Yaml × Yaml),
    (∀ p ∈ pre, (∃ s, yamlAsStr p.1 = some s) ∧ ∃ v, tryFromYaml p.2 = some (.ok v)) →
    ∀ k x suf, yamlAsStr k = none →
      tryFromYamlHash (pre ++ (k, x) :: suf) =
        some (.error (.InvalidValue (debugRender k)))
  | [], _, k, x, suf, hk => by simp [tryFromYamlHash, hk]
  | (k1, y) :: rest, h, k, x, suf, hk => by
      obtain ⟨⟨s, hs⟩, v, hv⟩ := h (k1, y) (List.mem_cons_self _ _)
      have hr := yamlHash_append_keyerr rest
        (fun p hp => h p (List.mem_cons_of_mem _ hp)) k x suf hk
      simp [tryFromYamlHash, hs, hv, hr]

/-! ### Claims -/

/-- C1, counterexample: the JSON round trip fails as stated.  The tree
`Int(5)` is built only from JSON-representable variants, yet exporting it
and importing the result yields `UInt(5)`, not `Int(5)`: serde stores a
non-negative `i64` in its unsigned representation, and the import chain
tests `is_u64` before falling back to `Int`. -/
theorem C1_json_roundtrip_cex :
    (intoJson (Value.Int 5)).map fromJson = some (Value.UInt 5) ∧
      Value.UInt 5 ≠ Value.Int 5 :=
  ⟨rfl, by simp⟩

/-- C1, amended: for every `Value` tree built only from variants JSON can
represent (no NaN/infinite float) in which every `Int` holds a negative
value (tables, as always, have unique keys), importing the result of
exporting it to the native JSON value yields the original tree back. -/
theorem C1_json_roundtrip (v : Value) (hwf : wfKeys v = true)
    (hgood : hasBadFloat v = false) (hneg : intsNeg v = true) :
    (intoJson v).map fromJson = some v := by
  obtain ⟨j, hj, hback⟩ := jsonRoundtrip v hwf hgood hneg
  simp [hj, hback]

/-- C1 witness: a concrete null-, table- and array-bearing tree whose
`Int` is negative round trips through JSON. -/
theorem C1_json_roundtrip_witness :
    (intoJson (Value.Table [("a", Value.Int (-1)),
        ("b", Value.Array [Value.UInt 3, Value.Null])])).map fromJson =
      some (Value.Table [("a", Value.Int (-1)),
        ("b", Value.Array [Value.UInt 3, Value.Null])]) :=
  C1_json_roundtrip _ (by decide) (by decide) (by decide)

/-- C2: JSON export of a `Float` holding NaN or an infinity hits the
`Number::from_f64(..).unwrap()` arm and does not succeed (the panic is the
modelled `none`; nothing is coerced); every value free of such floats
exports successfully, and in particular so does every value produced by
the JSON import. -/
theorem C2_json_export_bad_float :
    intoJson (Value.Float F64.nan) = none ∧
    (∀ b, intoJson (Value.Float (F64.inf b)) = none) ∧
    (∀ v, hasBadFloat v = false → (intoJson v).isSome = true) ∧
    (∀ j, (intoJson (fromJson j)).isSome = true) := by
  refine ⟨rfl, fun b => rfl, fun v h => ?_, fun j => ?_⟩
  · obtain ⟨w, hw⟩ := json_some_of_good v h
    simp [hw]
  · obtain ⟨w, hw⟩ := json_some_of_good (fromJson j) (fromJson_good j)
    simp [hw]

/-- C2 witness: a finite float exports successfully. -/
theorem C2_json_export_bad_float_witness :
    (intoJson (Value.Float (F64.finite false 25 (-1)))).isSome = true :=
  C2_json_export_bad_float.2.2.1 _ rfl

/-- C3: TOML export fails with `UnsupportedType("null")` exactly when the
tree contains `Null` anywhere; any null-free tree exports successfully;
array and table export propagate the first child failure unchanged. -/
theorem C3_toml_null_rejection :
    (∀ v, tryIntoToml v = .error (.UnsupportedType "null") ↔ containsNull v = true) ∧
    (∀ v, (∃ t, tryIntoToml v = .ok t) ↔ containsNull v = false) ∧
    (∀ pre x suf e, containsNullList pre = false → tryIntoToml x = .error e →
      tryIntoToml (Value.Array (pre ++ x :: suf)) = .error e) ∧
    (∀ pre k x suf e, containsNullPairs pre = false → tryIntoToml x = .error e →
      tryIntoToml (Value.Table (pre ++ (k, x) :: suf)) = .error e) := by
  refine ⟨fun v => ⟨fun h => ?_, toml_err_of_null v⟩,
    fun v => ⟨fun ⟨t, ht⟩ => ?_, fun h => toml_ok_of_noNull v h⟩,
    fun pre x suf e h1 h2 => ?_, fun pre k x suf e h1 h2 => ?_⟩
  · by_contra hq
    obtain ⟨t, ht⟩ := toml_ok_of_noNull v (by simpa using hq)
    rw [ht] at h
    exact Except.noConfusion h
  · by_contra hq
    have := toml_err_of_null v (by simpa using hq)
    rw [this] at ht
    exact Except.noConfusion ht
  · simp [tryIntoToml, tomlList_append_err pre h1 x suf e h2]
  · simp [tryIntoToml, tomlPairs_append_err pre h1 k x suf e h2]

/-- C3 witness: a nested null fails with the null error, the first
failing array child propagates, and a null-free tree exports. -/
theorem C3_toml_null_rejection_witness :
    tryIntoToml (Value.Array [Value.Bool true, Value.Null]) =
      .error (.UnsupportedType "null") ∧
    (∃ t, tryIntoToml (Value.Table [("a", Value.Int 1)]) = .ok t) :=
  ⟨C3_toml_null_rejection.2.2.1 [Value.Bool true] Value.Null [] _ rfl rfl,
    (C3_toml_null_rejection.2.1 _).mpr rfl⟩

/-- C4, counterexample: an alias node used as a mapping key does not fail
with `UnsupportedType("alias")` as the claim states for every nesting
position; the key's `as_str` check runs first, so the import fails with
`InvalidValue` carrying the key's `Debug` rendering. -/
theorem C4_yaml_errors_cex :
    tryFromYaml (Yaml.Hash [(Yaml.Alias 0, Yaml.Null)]) =
      some (.error (.InvalidValue "Alias(0)")) ∧
      VError.InvalidValue "Alias(0)" ≠ VError.UnsupportedType "alias" :=
  ⟨rfl, by simp⟩

/-- C4, amended: an alias node in value position (at any depth) fails with
`UnsupportedType("alias")`; an alias (or any non-string node) in mapping
key position falls under the key rule and fails with `InvalidValue`
carrying the key's diagnostic rendering; a bad-value node fails with
`InvalidValue` carrying its rendering; arrays and mappings propagate the
first child failure; all other node shapes import successfully, `Real`
nodes under the native layer's guarantee that their text parses. -/
theorem C4_yaml_errors :
    (∀ a, tryFromYaml (Yaml.Alias a) = some (.error (.UnsupportedType "alias"))) ∧
    tryFromYaml Yaml.BadValue =
      some (.error (.InvalidValue (debugRender Yaml.BadValue))) ∧
    (∀ pre x suf e, (∀ y ∈ pre, ∃ v, tryFromYaml y = some (.ok v)) →
      tryFromYaml x = some (.error e) →
      tryFromYaml (Yaml.Array (pre ++ x :: suf)) = some (.error e)) ∧
    (∀ pre ks x suf e,
      (∀ p ∈ pre, (∃ s, yamlAsStr p.1 = some s) ∧ ∃ v, tryFromYaml p.2 = some (.ok v)) →
      tryFromYaml x = some (.error e) →
      tryFromYaml (Yaml.Hash (pre ++ (Yaml.String ks, x) :: suf)) = some (.error e)) ∧
    (∀ pre k x suf,
      (∀ p ∈ pre, (∃ s, yamlAsStr p.1 = some s) ∧ ∃ v, tryFromYaml p.2 = some (.ok v)) →
      yamlAsStr k = none →
      tryFromYaml (Yaml.Hash (pre ++ (k, x) :: suf)) =
        some (.error (.InvalidValue (debugRender k)))) ∧
    tryFromYaml Yaml.Null = some (.ok Value.Null) ∧
    (∀ i : Int, ∃ v, tryFromYaml (Yaml.Integer i) = some (.ok v)) ∧
    (∀ s, tryFromYaml (Yaml.String s) = some (.ok (Value.String s))) ∧
    (∀ b, tryFromYaml (Yaml.Boolean b) = some (.ok (Value.Bool b))) ∧
    (∀ s f, parseF64 s = some f → tryFromYaml (Yaml.Real s) = some (.ok (Value.Float f))) ∧
    (∀ xs, (∀ y ∈ xs, ∃ v, tryFromYaml y = some (.ok v)) →
      ∃ v, tryFromYaml (Yaml.Array xs) = some (.ok v)) ∧
    (∀ h, (∀ p ∈ h, (∃ s, yamlAsStr p.1 = some s) ∧ ∃ v, tryFromYaml p.2 = some (.ok v)) →
      ∃ v, tryFromYaml (Yaml.Hash h) = some (.ok v)) := by
  refine ⟨fun a => rfl, rfl, fun pre x suf e h1 h2 => ?_,
    fun pre ks x suf e h1 h2 => ?_, fun pre k x suf h1 h2 => ?_, rfl,
    fun i => ?_, fun s => rfl, fun b => rfl, fun s f h => ?_,
    fun xs h => ?_, fun h hh => ?_⟩
  · simp [tryFromYaml, yamlList_append_err pre h1 x suf e h2]
  · simp [tryFromYaml, yamlHash_append_verr pre h1 ks x suf e h2]
  · simp [tryFromYaml, yamlHash_append_keyerr pre h1 k x suf h2]
  · by_cases hi : 0 ≤ i
    · exact ⟨Value.UInt i.toNat, by simp [tryFromYaml, hi]⟩
    · exact ⟨Value.Int i, by simp [tryFromYaml, hi]⟩
  · simp [tryFromYaml, h]
  · obtain ⟨vs, hvs⟩ := yamlList_ok xs h
    exact ⟨Value.Array vs, by simp [tryFromYaml, hvs]⟩
  · obtain ⟨ps, hps⟩ := yamlHash_ok h hh
    exact ⟨Value.Table (mapFromList [] ps), by simp [tryFromYaml, hps]⟩

/-- C4 witness: a nested alias in value position fails with the alias
error, and a mapping with a string key and boolean value imports. -/
theorem C4_yaml_errors_witness :
    tryFromYaml (Yaml.Array [Yaml.Null, Yaml.Alias 1]) =
      some (.error (.UnsupportedType "alias")) ∧
    (∃ v, tryFromYaml (Yaml.Hash [(Yaml.String "k", Yaml.Boolean true)]) =
      some (.ok v)) :=
  ⟨C4_yaml_errors.2.2.1 [Yaml.Null] (Yaml.Alias 1) [] _
      (by intro y hy; simp at hy; subst hy; exact ⟨Value.Null, rfl⟩) rfl,
    C4_yaml_errors.2.2.2.2.2.2.2.2.2.2.2 [(Yaml.String "k", Yaml.Boolean true)]
      (by intro p hp; simp at hp; subst hp
          exact ⟨⟨"k", rfl⟩, Value.Bool true, rfl⟩)⟩

/-- C5: sign split fidelity — a non-negative integer imports as `UInt`
of the same magnitude from each of the three formats, a negative integer
is imported as `Int`, unchanged.  (A non-negative integer reaches the
JSON importer as serde's unsigned representation `PosInt`, a negative one as
`NegInt`.) -/
theorem C5_sign_split :
    (∀ n : Nat, fromJson (.Number (.PosInt n)) = Value.UInt n) ∧
    (∀ i : Int, i < 0 → fromJson (.Number (.NegInt i)) = Value.Int i) ∧
    (∀ i : Int, 0 ≤ i →
      fromToml (.Integer i) = Value.UInt i.toNat ∧ (i.toNat : Int) = i) ∧
    (∀ i : Int, i < 0 → fromToml (.Integer i) = Value.Int i) ∧
    (∀ i : Int, 0 ≤ i →
      tryFromYaml (.Integer i) = some (.ok (Value.UInt i.toNat)) ∧ (i.toNat : Int) = i) ∧
    (∀ i : Int, i < 0 → tryFromYaml (.Integer i) = some (.ok (Value.Int i))) := by
  refine ⟨fun n => rfl, fun i hi => rfl,
    fun i hi => ⟨?_, Int.toNat_of_nonneg hi⟩, fun i hi => ?_,
    fun i hi => ⟨?_, Int.toNat_of_nonneg hi⟩, fun i hi => ?_⟩
  · simp [fromToml, hi]
  · simp [fromToml, not_le.mpr hi]
  · simp [tryFromYaml, hi]
  · simp [tryFromYaml, not_le.mpr hi]

/-- C5 witness: `5` and `-5` at each of the three importers. -/
theorem C5_sign_split_witness :
    fromJson (.Number (.PosInt 5)) = Value.UInt 5 ∧
    fromJson (.Number (.NegInt (-5))) = Value.Int (-5) ∧
    fromToml (.Integer 5) = Value.UInt 5 ∧
    fromToml (.Integer (-5)) = Value.Int (-5) ∧
    tryFromYaml (.Integer 5) = some (.ok (Value.UInt 5)) ∧
    tryFromYaml (.Integer (-5)) = some (.ok (Value.Int (-5))) :=
  ⟨C5_sign_split.1 5, C5_sign_split.2.1 (-5) (by decide),
    (C5_sign_split.2.2.1 5 (by decide)).1, C5_sign_split.2.2.2.1 (-5) (by decide),
    (C5_sign_split.2.2.2.2.1 5 (by decide)).1,
    C5_sign_split.2.2.2.2.2 (-5) (by decide)⟩

/-- C6: JSON import is total (a total function of the native value) and
classifies a native number by serde's representation: a float
representation (`is_f64`) yields `Float`, else the unsigned representation
(`is_u64`) yields `UInt`, else the remaining signed representation yields
`Int` via `as_i64`; null imports to `Null`, arrays recurse preserving
order, objects recurse into a `Table`. -/
theorem C6_json_import_classification :
    (∀ neg m e, (JNumber.FloatN neg m e).is_f64 = true ∧
      fromJson (.Number (.FloatN neg m e)) = Value.Float (.finite neg m e) ∧
      (JNumber.FloatN neg m e).as_f64 = some (.finite neg m e)) ∧
    (∀ n, (JNumber.PosInt n).is_f64 = false ∧ (JNumber.PosInt n).is_u64 = true ∧
      fromJson (.Number (.PosInt n)) = Value.UInt n ∧
      (JNumber.PosInt n).as_u64 = some n) ∧
    (∀ i, (JNumber.NegInt i).is_f64 = false ∧ (JNumber.NegInt i).is_u64 = false ∧
      fromJson (.Number (.NegInt i)) = Value.Int i ∧
      (JNumber.NegInt i).as_i64 = some i) ∧
    fromJson .Null = Value.Null ∧
    (∀ xs, fromJson (.Array xs) = Value.Array (xs.map fromJson)) ∧
    (∀ o, fromJson (.Object o) =
      Value.Table (mapFromList [] (o.map (fun p => (p.1, fromJson p.2))))) := by
  refine ⟨fun neg m e => ⟨rfl, rfl, rfl⟩, fun n => ⟨rfl, rfl, rfl, rfl⟩,
    fun i => ⟨rfl, rfl, rfl, rfl⟩, rfl, fun xs => ?_, fun o => ?_⟩
  · simp [fromJson, fromJsonList_eq_map]
  · simp [fromJson, fromJsonPairs_eq_map]

/-- C7: TOML export of `UInt(u)` always succeeds and yields the signed
64-bit integer that reinterprets `u` modulo `2^64`: it equals `u` when
`u ≤ i64::MAX` and wraps to `u - 2^64` (a negative value) when the
unsigned magnitude exceeds the signed range; it is never a failure. -/
theorem C7_toml_uint_narrowing (u : Nat) (hu : u < 2 ^ 64) :
    tryIntoToml (Value.UInt u) = .ok (.Integer (u64_as_i64 u)) ∧
    u64_as_i64 u % (2 ^ 64 : Int) = (u : Int) ∧
    (u ≤ 2 ^ 63 - 1 → u64_as_i64 u = (u : Int)) ∧
    (2 ^ 63 - 1 < u → u64_as_i64 u = (u : Int) - 2 ^ 64 ∧ u64_as_i64 u < 0) := by
  refine ⟨rfl, ?_, fun h => ?_, fun h => ?_⟩ <;> unfold u64_as_i64 <;> split <;> omega

/-- C7 witness: `2^63` (just past `i64::MAX`) exports without failure,
wrapping to the negative value `-2^63`. -/
theorem C7_toml_uint_narrowing_witness :
    tryIntoToml (Value.UInt (2 ^ 63)) = .ok (.Integer (u64_as_i64 (2 ^ 63))) ∧
    u64_as_i64 (2 ^ 63) < 0 :=
  ⟨(C7_toml_uint_narrowing (2 ^ 63) (by decide)).1,
    ((C7_toml_uint_narrowing (2 ^ 63) (by decide)).2.2.2 (by decide)).2⟩

/-- C8: under the precondition that the `Real` node's text parses as a
float (which the native layer guarantees), YAML import yields `Float` of
the parsed value and the abort branch is unreachable; the parse is
unchecked, so a malformed `Real` string aborts (the modelled `none`)
rather than returning a structured error. -/
theorem C8_yaml_real_parse :
    (∀ s f, parseF64 s = some f →
      tryFromYaml (Yaml.Real s) = some (.ok (Value.Float f))) ∧
    (∀ s, parseF64 s = none → tryFromYaml (Yaml.Real s) = none) := by
  refine ⟨fun s f h => ?_, fun s h => ?_⟩ <;> simp [tryFromYaml, h]

/-- C8 witness: `"1.5"` parses and imports as the corresponding float;
`"x"` does not parse and the import aborts. -/
theorem C8_yaml_real_parse_witness :
    tryFromYaml (Yaml.Real "1.5") = some (.ok (Value.Float (.finite false 15 (-1)))) ∧
    tryFromYaml (Yaml.Real "x") = none :=
  ⟨C8_yaml_real_parse.1 "1.5" (.finite false 15 (-1)) (by decide),
    C8_yaml_real_parse.2 "x" (by decide)⟩

/-- C9: the derived structural equality on `Value` compared with itself is
false exactly on trees containing `Float(NaN)` somewhere (float comparison
is IEEE comparison), and true on every NaN-free tree. -/
theorem C9_nan_not_reflexive (v : Value) (hwf : wfKeys v = true) :
    valueBeq v v = !containsNaN v :=
  beq_self v hwf

/-- C9 witness: an array containing NaN is not equal to itself; a NaN-free
table is. -/
theorem C9_nan_not_reflexive_witness :
    valueBeq (Value.Array [Value.Float F64.nan]) (Value.Array [Value.Float F64.nan])
      = false ∧
    valueBeq (Value.Table [("a", Value.Float (.finite false 1 0))])
      (Value.Table [("a", Value.Float (.finite false 1 0))]) = true :=
  ⟨C9_nan_not_reflexive (Value.Array [Value.Float F64.nan]) rfl,
    C9_nan_not_reflexive (Value.Table [("a", Value.Float (.finite false 1 0))])
      (by decide)⟩

/-- C10: the (total) YAML export narrows `UInt(u)` to a signed 64-bit
integer by two's-complement reinterpretation; for every `u` above
`i64::MAX` the exported integer is negative, wrapping modulo `2^64`. -/
theorem C10_yaml_uint_wrap (u : Nat) (hu : u < 2 ^ 64) :
    intoYaml (Value.UInt u) = .Integer (u64_as_i64 u) ∧
    (2 ^ 63 - 1 < u →
      u64_as_i64 u < 0 ∧ u64_as_i64 u % (2 ^ 64 : Int) = (u : Int)) := by
  refine ⟨rfl, fun h => ⟨?_, ?_⟩⟩ <;> unfold u64_as_i64 <;> split <;> omega

/-- C10 witness: `u64::MAX` exports to the negative YAML integer `-1`. -/
theorem C10_yaml_uint_wrap_witness :
    intoYaml (Value.UInt (2 ^ 64 - 1)) = .Integer (u64_as_i64 (2 ^ 64 - 1)) ∧
    u64_as_i64 (2 ^ 64 - 1) < 0 :=
  ⟨(C10_yaml_uint_wrap (2 ^ 64 - 1) (by decide)).1,
    ((C10_yaml_uint_wrap (2 ^ 64 - 1) (by decide)).2 (by decide)).1⟩
